import Mathlib

/-!
Verification of the image-cache / memory-management core of the
app-swifty-healthy repository.

The development shallowly embeds, in Lean, the TypeScript classes
`ImageMemoryManager` (src/utils/imageProcessing.ts), `ImageCache`
(src/utils/imageCache.ts), `compressImage` (src/utils/imageCompression.ts)
and `AppLifecycleManager.performCleanup` (src/utils/appLifecycle.ts).

Modelling conventions:
- JavaScript numbers are modelled as rationals (`ℚ`).  All byte counts that
  occur in the code are integers well below 2^50, and the only non-integer
  operations performed on them are multiplication by the literals 0.8 and 0.5
  and division by the constant limit; for such inputs IEEE double arithmetic
  is exact or rounds to the same comparison outcome as exact rational
  arithmetic, so `ℚ` is a faithful model.
- The JS `Map` is modelled as an association list with first-match lookup,
  in-place replacement on insert of an existing key, and insertion-order
  iteration, matching JS `Map` semantics.
- The JS truthiness idiom `a || b` applied to an optional number
  (`cached.compressedSize || cached.size`) treats both `undefined` and `0` as
  falsy; `jsOrQ` reproduces this exactly, and `jsOrStr` does the same for
  optional strings (empty string falsy).
- Asynchronous I/O boundaries (`fetch`, the awaited `compressImage` call) are
  passed in as explicit parameters: `fetchRes : Option ℚ` is the byte size
  returned by fetching the source (`none` = the fetch failed), and
  `compressRes : Option (String × ℚ)` is the value produced by the awaited
  compression call (`none` = that call threw, which the cache catches).
  `getCachedImageRepo` closes the latter parameter with the repository's own
  `compressImage`, which never throws.
- `Date.now()` is passed in as `now : ℚ`.
- The `while` loop of `enforceCacheLimits` is modelled with explicit fuel;
  theorems about it quantify over all fuel values.
-/

/-! Constants of the source, with their exact literal values. -/

def MEMORY_LIMIT : ℚ := 100 * 1024 * 1024

def WARNING_THRESHOLD : ℚ := 0.8

def MAX_CACHE_SIZE : ℚ := 50 * 1024 * 1024

def MAX_CACHE_ENTRIES : ℕ := 20

def CACHE_EXPIRY_MS : ℚ := 30 * 60 * 1000

/-! ImageMemoryManager (src/utils/imageProcessing.ts).
The class keeps a single number `memoryUsage`; each static method is embedded
as a function of that number. -/

/-- Embeds `ImageMemoryManager.releaseMemory`: subtract, floored at zero. -/
def releaseMemory (bytes usage : ℚ) : ℚ := max 0 (usage - bytes)

/-- Embeds `ImageMemoryManager.trackMemoryUsage`.  Adds the bytes; if the new
usage exceeds the warning threshold a warning is logged (no state change), and
if it also exceeds the hard limit the manager force-releases half of the
current usage via `releaseMemory(memoryUsage * 0.5)` (the call to
`ImageProcessor.forceCleanup()` only touches temat-file bookkeeping outside
this state). -/
def trackMemoryUsage (bytes usage : ℚ) : ℚ :=
  let u := usage + bytes
  if MEMORY_LIMIT * WARNING_THRESHOLD < u then
    if MEMORY_LIMIT < u then releaseMemory (u * (0.5 : ℚ)) u else u
  else u

/-- Embeds `ImageMemoryManager.canAllocate`: `memoryUsage + bytes <= MEMORY_LIMIT`. -/
def canAllocate (bytes usage : ℚ) : Bool := decide (usage + bytes ≤ MEMORY_LIMIT)

/-- Embeds the `percentage` field of `ImageMemoryManager.getMemoryUsage()`. -/
def memoryPercentage (usage : ℚ) : ℚ := usage / MEMORY_LIMIT * 100

/-! Data model of the cache (interface `CachedImage` of src/utils/imageCache.ts). -/

structure CachedImage where
  uri : String
  compressedUri : Option String
  size : ℚ
  compressedSize : Option ℚ
  timestamp : ℚ
  accessCount : ℕ
  lastAccessed : ℚ
  deriving DecidableEq

inductive Priority where
  | low
  | normal
  | high
  deriving DecidableEq

/-- Options of `getCachedImage` (interface `ImageCacheOptions`), with the
destructuring defaults of the source (`enableCompression = true`,
`cacheKey = imageUri`, `priority = 'normal'`). -/
structure CacheOptions where
  enableCompression : Bool := true
  cacheKey : Option String := none
  priority : Priority := Priority.normal
  deriving DecidableEq

def defaultOptions : CacheOptions := {}

/-- Result record of `getCachedImage`. -/
structure CacheResult where
  uri : String
  size : ℚ
  fromCache : Bool
  deriving DecidableEq

/-- Combined mutable state: the `ImageCache.cache` map and the
`ImageMemoryManager.memoryUsage` counter. -/
structure SysState where
  cache : List (String × CachedImage)
  usage : ℚ
  deriving DecidableEq

def initState : SysState := { cache := [], usage := 0 }

/-! JS `Map` operations on the association list. -/

def mapLookup (k : String) : List (String × CachedImage) → Option CachedImage
  | [] => none
  | kv :: rest => if kv.1 = k then some kv.2 else mapLookup k rest

/-- JS `Map.set`: replace in place if present, else append. -/
def mapSet (k : String) (v : CachedImage) :
    List (String × CachedImage) → List (String × CachedImage)
  | [] => [(k, v)]
  | kv :: rest => if kv.1 = k then (k, v) :: rest else kv :: mapSet k v rest

/-- JS `Map.delete`: remove the binding of the key. -/
def mapDelete (k : String) : List (String × CachedImage) → List (String × CachedImage)
  | [] => []
  | kv :: rest => if kv.1 = k then rest else kv :: mapDelete k rest

/-! JS truthiness helpers. -/

/-- Embeds the expression `a || b` for an optional number `a`: both
`undefined` and `0` fall through to `b`. -/
def jsOrQ : Option ℚ → ℚ → ℚ
  | some x, y => if x = 0 then y else x
  | none, y => y

/-- Embeds the expression `a || b` for an optional string `a`: both
`undefined` and the empty string fall through to `b`. -/
def jsOrStr : Option String → String → String
  | some s, t => if s = "" then t else s
  | none, t => t

/-- Bytes a cache entry contributes: `cached.compressedSize || cached.size`. -/
def entryCharge (c : CachedImage) : ℚ := jsOrQ c.compressedSize c.size

/-- Embeds `ImageCache.getCacheSize()`: the reduce over all entries of
`cached.compressedSize || cached.size`. -/
def cacheSizeList : List (String × CachedImage) → ℚ
  | [] => 0
  | kv :: rest => entryCharge kv.2 + cacheSizeList rest

def cacheSize (st : SysState) : ℚ := cacheSizeList st.cache

/-! Private helpers of ImageCache. -/

/-- Embeds `ImageCache.isCacheValid`: `now - cached.timestamp < CACHE_EXPIRY_MS`. -/
def isCacheValid (now : ℚ) (c : CachedImage) : Bool :=
  decide (now - c.timestamp < CACHE_EXPIRY_MS)

/-- Embeds `ImageCache.estimateImageSize`: the fetched blob size, or the 1MB
default when the fetch fails (the failure is caught inside the method). -/
def estimateImageSize (fetchRes : Option ℚ) : ℚ :=
  match fetchRes with
  | some s => s
  | none => 1024 * 1024

/-- Embeds `ImageCache.shouldCompress`: size strictly above the
priority-dependent threshold. -/
def shouldCompress (size : ℚ) (priority : Priority) : Bool :=
  match priority with
  | Priority.low => decide (2 * 1024 * 1024 < size)
  | Priority.normal => decide (1 * 1024 * 1024 < size)
  | Priority.high => decide (512 * 1024 < size)

/-- Embeds `ImageCache.clearImage`: if the key is present, release
`compressedSize || size` from the memory manager and delete the entry. -/
def clearImage (key : String) (st : SysState) : SysState :=
  match mapLookup key st.cache with
  | some cached =>
      { cache := mapDelete key st.cache,
        usage := releaseMemory (entryCharge cached) st.usage }
  | none => st

/-- Embeds `ImageCache.clearAll`: release every entry's charge, then empty the map. -/
def clearAll (st : SysState) : SysState :=
  { cache := [],
    usage := st.cache.foldl (fun u kv => releaseMemory (entryCharge kv.2) u) st.usage }

/-- Embeds `ImageCache.removeExpiredEntries`: collect the keys with
`now - timestamp > CACHE_EXPIRY_MS`, then `clearImage` each of them. -/
def removeExpiredEntries (now : ℚ) (st : SysState) : SysState :=
  let expiredKeys :=
    (st.cache.filter (fun kv => decide (CACHE_EXPIRY_MS < now - kv.2.timestamp))).map Prod.fst
  expiredKeys.foldl (fun s k => clearImage k s) st

/-- Stable insertion used to embed the JS stable `Array.sort` on
`lastAccessed`: the element goes after every entry whose key is not greater. -/
def insertByLastAccessed (x : String × CachedImage) :
    List (String × CachedImage) → List (String × CachedImage)
  | [] => [x]
  | y :: ys =>
      if x.2.lastAccessed < y.2.lastAccessed then x :: y :: ys
      else y :: insertByLastAccessed x ys

/-- Stable sort by `lastAccessed` ascending (oldest first), as performed by
`removeLeastRecentlyUsed`. -/
def sortByLastAccessed (l : List (String × CachedImage)) : List (String × CachedImage) :=
  l.foldl (fun acc x => insertByLastAccessed x acc) []

/-- Loop body of `ImageCache.removeLeastRecentlyUsed`: walk the sorted
snapshot; break once `freedBytes >= requiredBytes` and the live cache size is
at most 80% of `MAX_CACHE_SIZE`; otherwise clear the entry and continue. -/
def removeLRUloop : List (String × CachedImage) → ℚ → ℚ → SysState → SysState
  | [], _, _, st => st
  | (key, cached) :: rest, freed, required, st =>
      if required ≤ freed ∧ cacheSize st ≤ MAX_CACHE_SIZE * (0.8 : ℚ) then st
      else removeLRUloop rest (freed + entryCharge cached) required (clearImage key st)

/-- Embeds `ImageCache.removeLeastRecentlyUsed(requiredBytes = 0)`. -/
def removeLeastRecentlyUsed (required : ℚ) (st : SysState) : SysState :=
  removeLRUloop (sortByLastAccessed st.cache) 0 required st

/-- Embeds `ImageCache.cleanup(requiredBytes = 0)`.  Note the source snapshots
`memoryUsage` and `cacheSize` before removing expired entries and uses the
snapshots in the condition. -/
def cleanup (now required : ℚ) (st : SysState) : SysState :=
  let pct := memoryPercentage st.usage
  let cs := cacheSize st
  let st1 := removeExpiredEntries now st
  if MAX_CACHE_SIZE < cs + required ∨ 80 < pct then removeLeastRecentlyUsed required st1
  else st1

/-- Embeds the `while` loop of `ImageCache.enforceCacheLimits`, with explicit
fuel: while the entry count exceeds `MAX_CACHE_ENTRIES` or the cache size
exceeds `MAX_CACHE_SIZE`, call `removeLeastRecentlyUsed()`. -/
def enforceCacheLimits : ℕ → SysState → SysState
  | 0, st => st
  | fuel + 1, st =>
      if MAX_CACHE_ENTRIES < st.cache.length ∨ MAX_CACHE_SIZE < cacheSize st then
        enforceCacheLimits fuel (removeLeastRecentlyUsed 0 st)
      else st

/-! The core operation `ImageCache.getCachedImage`. -/

/-- Compression decision of the miss path: when compression is enabled and
`shouldCompress` holds, the awaited `compressImage` result is adopted only if
`compressed.size < estimatedSize * 0.8`; a compression failure (`none`) is
caught and falls through to the original. -/
def chooseProcessed (compressRes : Option (String × ℚ)) (imageUri : String) (est : ℚ)
    (doCompress : Bool) : String × ℚ :=
  if doCompress then
    match compressRes with
    | some c => if c.2 < est * (0.8 : ℚ) then c else (imageUri, est)
    | none => (imageUri, est)
  else (imageUri, est)

/-- Steps 3-7 of the miss path: track the estimated size, optionally compress,
build the `CachedImage` record (compressed fields only when the processed
reference differs from the original), insert it at the key, enforce the cache
limits, and return the processed reference with `fromCache: false`. -/
def missEntry (compressRes : Option (String × ℚ)) (imageUri : String) (est : ℚ)
    (doCompress : Bool) (now : ℚ) : CachedImage :=
  let p := chooseProcessed compressRes imageUri est doCompress
  { uri := imageUri,
    compressedUri := if p.1 = imageUri then none else some p.1,
    size := est,
    compressedSize := if p.1 = imageUri then none else some p.2,
    timestamp := now,
    accessCount := 1,
    lastAccessed := now }

def processAndCache (now : ℚ) (compressRes : Option (String × ℚ)) (imageUri : String)
    (opts : CacheOptions) (fuel : ℕ) (cacheKey : String) (est : ℚ) (st : SysState) :
    CacheResult × SysState :=
  let usage1 := trackMemoryUsage est st.usage
  let doCompress := opts.enableCompression && shouldCompress est opts.priority
  let p := chooseProcessed compressRes imageUri est doCompress
  let st2 : SysState :=
    { cache := mapSet cacheKey (missEntry compressRes imageUri est doCompress now) st.cache,
      usage := usage1 }
  (⟨p.1, p.2, false⟩, enforceCacheLimits fuel st2)

/-- Miss path of `getCachedImage` (steps 2-7): estimate the size; if the
allocation does not fit, run `cleanup` and re-check; if it still does not fit,
return the original reference with `fromCache: false` without touching the
memory manager; otherwise account and cache. -/
def getCachedImageMiss (now : ℚ) (fetchRes : Option ℚ) (compressRes : Option (String × ℚ))
    (imageUri : String) (opts : CacheOptions) (fuel : ℕ) (cacheKey : String)
    (st : SysState) : CacheResult × SysState :=
  let est := estimateImageSize fetchRes
  if canAllocate est st.usage then
    processAndCache now compressRes imageUri opts fuel cacheKey est st
  else
    let st1 := cleanup now est st
    if canAllocate est st1.usage then
      processAndCache now compressRes imageUri opts fuel cacheKey est st1
    else (⟨imageUri, est, false⟩, st1)

/-- Embeds `ImageCache.getCachedImage`.  On a live, unexpired entry this is
the hit path: bump `accessCount`, set `lastAccessed`, and return the
compressed-or-original reference with `fromCache: true`; otherwise the miss
path runs.  The body never throws (every awaited failure is caught), so the
outer catch block of the source is unreachable and the result type is total. -/
def getCachedImage (now : ℚ) (fetchRes : Option ℚ) (compressRes : Option (String × ℚ))
    (imageUri : String) (opts : CacheOptions) (fuel : ℕ) (st : SysState) :
    CacheResult × SysState :=
  let cacheKey := opts.cacheKey.getD imageUri
  match mapLookup cacheKey st.cache with
  | some cached =>
      if isCacheValid now cached then
        (⟨jsOrStr cached.compressedUri cached.uri, jsOrQ cached.compressedSize cached.size, true⟩,
         { st with
            cache := mapSet cacheKey
              { cached with accessCount := cached.accessCount + 1, lastAccessed := now }
              st.cache })
      else getCachedImageMiss now fetchRes compressRes imageUri opts fuel cacheKey st
  | none => getCachedImageMiss now fetchRes compressRes imageUri opts fuel cacheKey st

/-- Embeds `compressImage` of src/utils/imageCompression.ts: a pass-through
that fetches the source to learn its size and returns the original URI with
that size; on a fetch failure it catches the error and returns the original
URI with size 0.  It never changes the reference and never throws. -/
def compressImageModel (imageUri : String) (fetchRes : Option ℚ) : String × ℚ :=
  match fetchRes with
  | some s => (imageUri, s)
  | none => (imageUri, 0)

/-- The cache composed with the repository's own `compressImage`, both calls
observing the same fetch outcome for the source URI. -/
def getCachedImageRepo (now : ℚ) (fetchRes : Option ℚ) (imageUri : String)
    (opts : CacheOptions) (fuel : ℕ) (st : SysState) : CacheResult × SysState :=
  getCachedImage now fetchRes (some (compressImageModel imageUri fetchRes))
    imageUri opts fuel st

/-! Statistics and lifecycle. -/

structure CacheStats where
  size : ℚ
  entries : ℕ
  memoryUsage : ℚ
  hitRate : ℚ
  deriving DecidableEq

/-- Embeds `ImageCache.getCacheStats`. -/
def getCacheStats (st : SysState) : CacheStats :=
  let totalAccess : ℚ := st.cache.foldl (fun s kv => s + (kv.2.accessCount : ℚ)) 0
  let cacheHits : ℚ := st.cache.foldl (fun s kv => s + ((kv.2.accessCount : ℚ) - 1)) 0
  { size := cacheSize st,
    entries := st.cache.length,
    memoryUsage := st.usage,
    hitRate := if 0 < totalAccess then cacheHits / totalAccess * 100 else 0 }

structure MemoryUsage where
  current : ℚ
  limit : ℚ
  percentage : ℚ
  deriving DecidableEq

/-- Embeds `ImageMemoryManager.getMemoryUsage`. -/
def getMemoryUsage (st : SysState) : MemoryUsage :=
  { current := st.usage, limit := MEMORY_LIMIT, percentage := memoryPercentage st.usage }

/-- Embeds `AppLifecycleManager.performCleanup` (the body of `forceCleanup`):
temp-file cleanup (outside this state), then `ImageMemoryManager.reset()`,
then `ImageCache.clearAll()`, in the order of the source. -/
def performCleanup (st : SysState) : SysState :=
  clearAll { st with usage := 0 }

/-! Accounting invariant: the memory manager never undercounts the live cache.
`entriesOKList` states that every live entry contributes a nonnegative charge
(true of every entry the code can create, since blob sizes are nonnegative). -/

def entriesOKList (l : List (String × CachedImage)) : Prop :=
  ∀ kv ∈ l, 0 ≤ entryCharge kv.2

def accountingInv (st : SysState) : Prop :=
  entriesOKList st.cache ∧ cacheSize st ≤ st.usage

/-! Lemmas about the association-list map operations. -/

theorem mapLookup_mem {k : String} {c : CachedImage} :
    ∀ {l : List (String × CachedImage)}, mapLookup k l = some c → (k, c) ∈ l := by
  intro l
  induction l with
  | nil => intro h; simp [mapLookup] at h
  | cons kv rest ih =>
      intro h
      by_cases hk : kv.1 = k
      · simp only [mapLookup, if_pos hk, Option.some.injEq] at h
        have hkv : kv = (k, c) := by
          obtain ⟨a, b⟩ := kv
          simp only at hk h
          rw [hk, h]
        exact List.mem_cons.mpr (Or.inl hkv.symm)
      · simp [mapLookup, hk] at h
        exact List.mem_cons_of_mem _ (ih h)

theorem mem_mapDelete {k : String} {x : String × CachedImage} :
    ∀ {l : List (String × CachedImage)}, x ∈ mapDelete k l → x ∈ l := by
  intro l
  induction l with
  | nil => intro h; simp [mapDelete] at h
  | cons kv rest ih =>
      intro h
      by_cases hk : kv.1 = k
      · simp only [mapDelete, if_pos hk] at h
        exact List.mem_cons_of_mem _ h
      · simp only [mapDelete, if_neg hk] at h
        rcases List.mem_cons.mp h with h1 | h2
        · exact h1 ▸ List.mem_cons_self _ _
        · exact List.mem_cons_of_mem _ (ih h2)

theorem mem_mapSet_elim {k : String} {v : CachedImage} {x : String × CachedImage} :
    ∀ {l : List (String × CachedImage)}, x ∈ mapSet k v l → x = (k, v) ∨ x ∈ l := by
  intro l
  induction l with
  | nil => intro h; simp [mapSet] at h; exact Or.inl h
  | cons kv rest ih =>
      intro h
      by_cases hk : kv.1 = k
      · simp only [mapSet, if_pos hk] at h
        rcases List.mem_cons.mp h with h1 | h2
        · exact Or.inl h1
        · exact Or.inr (List.mem_cons_of_mem _ h2)
      · simp only [mapSet, if_neg hk] at h
        rcases List.mem_cons.mp h with h1 | h2
        · exact Or.inr (h1 ▸ List.mem_cons_self _ _)
        · rcases ih h2 with h3 | h4
          · exact Or.inl h3
          · exact Or.inr (List.mem_cons_of_mem _ h4)

theorem cacheSizeList_mapDelete {k : String} {c : CachedImage} :
    ∀ {l : List (String × CachedImage)}, mapLookup k l = some c →
      cacheSizeList (mapDelete k l) = cacheSizeList l - entryCharge c := by
  intro l
  induction l with
  | nil => intro h; simp [mapLookup] at h
  | cons kv rest ih =>
      intro h
      by_cases hk : kv.1 = k
      · simp only [mapLookup, if_pos hk, Option.some.injEq] at h
        simp only [mapDelete, if_pos hk, cacheSizeList, h]
        ring
      · simp only [mapLookup, if_neg hk] at h
        simp only [mapDelete, if_neg hk, cacheSizeList, ih h]
        ring

theorem cacheSizeList_mapSet_none {k : String} {v : CachedImage} :
    ∀ {l : List (String × CachedImage)}, mapLookup k l = none →
      cacheSizeList (mapSet k v l) = cacheSizeList l + entryCharge v := by
  intro l
  induction l with
  | nil => intro _; simp [mapSet, cacheSizeList]
  | cons kv rest ih =>
      intro h
      by_cases hk : kv.1 = k
      · simp [mapLookup, hk] at h
      · simp only [mapLookup, if_neg hk] at h
        simp only [mapSet, if_neg hk, cacheSizeList, ih h]
        ring

theorem cacheSizeList_mapSet_some {k : String} {v c : CachedImage} :
    ∀ {l : List (String × CachedImage)}, mapLookup k l = some c →
      cacheSizeList (mapSet k v l) = cacheSizeList l - entryCharge c + entryCharge v := by
  intro l
  induction l with
  | nil => intro h; simp [mapLookup] at h
  | cons kv rest ih =>
      intro h
      by_cases hk : kv.1 = k
      · simp only [mapLookup, if_pos hk, Option.some.injEq] at h
        simp only [mapSet, if_pos hk, cacheSizeList, h]
        ring
      · simp only [mapLookup, if_neg hk] at h
        simp only [mapSet, if_neg hk, cacheSizeList, ih h]
        ring

theorem length_mapSet_of_lookup_none {k : String} {v : CachedImage} :
    ∀ {l : List (String × CachedImage)}, mapLookup k l = none →
      (mapSet k v l).length = l.length + 1 := by
  intro l
  induction l with
  | nil => intro _; simp [mapSet]
  | cons kv rest ih =>
      intro h
      by_cases hk : kv.1 = k
      · simp [mapLookup, hk] at h
      · simp only [mapLookup, if_neg hk] at h
        simp only [mapSet, if_neg hk, List.length_cons, ih h]

theorem length_mapSet_of_lookup_some {k : String} {v c : CachedImage} :
    ∀ {l : List (String × CachedImage)}, mapLookup k l = some c →
      (mapSet k v l).length = l.length := by
  intro l
  induction l with
  | nil => intro h; simp [mapLookup] at h
  | cons kv rest ih =>
      intro h
      by_cases hk : kv.1 = k
      · simp [mapSet, hk]
      · simp only [mapLookup, if_neg hk] at h
        simp only [mapSet, if_neg hk, List.length_cons, ih h]

/-! Invariant preservation through the release-side operations, which all pass
through `clearImage`. -/

theorem releaseMemory_nonneg (b u : ℚ) : 0 ≤ releaseMemory b u := le_max_left 0 _

theorem clearImage_inv {st : SysState} (h : accountingInv st) (k : String) :
    accountingInv (clearImage k st) := by
  obtain ⟨hok, hsz⟩ := h
  cases hl : mapLookup k st.cache with
  | none =>
      simp only [accountingInv, clearImage, hl]
      exact ⟨hok, hsz⟩
  | some c =>
      constructor
      · intro kv hkv
        simp only [clearImage, hl] at hkv
        exact hok kv (mem_mapDelete hkv)
      · simp only [clearImage, hl, cacheSize, releaseMemory]
        rw [cacheSizeList_mapDelete hl]
        simp only [cacheSize] at hsz
        refine le_trans (sub_le_sub_right hsz _) ?_
        exact le_max_right 0 _

theorem foldl_clearImage_inv {st : SysState} (h : accountingInv st) (ks : List String) :
    accountingInv (ks.foldl (fun s k => clearImage k s) st) := by
  induction ks generalizing st with
  | nil => exact h
  | cons k rest ih => exact ih (clearImage_inv h k)

theorem removeExpiredEntries_inv {st : SysState} (h : accountingInv st) (now : ℚ) :
    accountingInv (removeExpiredEntries now st) :=
  foldl_clearImage_inv h _

theorem removeLRUloop_inv {st : SysState} (h : accountingInv st)
    (es : List (String × CachedImage)) (freed required : ℚ) :
    accountingInv (removeLRUloop es freed required st) := by
  induction es generalizing st freed with
  | nil => exact h
  | cons kv rest ih =>
      obtain ⟨key, cached⟩ := kv
      unfold removeLRUloop
      split
      · exact h
      · exact ih (clearImage_inv h key) _

theorem removeLeastRecentlyUsed_inv {st : SysState} (h : accountingInv st) (required : ℚ) :
    accountingInv (removeLeastRecentlyUsed required st) :=
  removeLRUloop_inv h _ _ _

theorem cleanup_inv {st : SysState} (h : accountingInv st) (now required : ℚ) :
    accountingInv (cleanup now required st) := by
  simp only [cleanup]
  split
  · exact removeLeastRecentlyUsed_inv (removeExpiredEntries_inv h now) _
  · exact removeExpiredEntries_inv h now

theorem enforceCacheLimits_inv {st : SysState} (h : accountingInv st) (fuel : ℕ) :
    accountingInv (enforceCacheLimits fuel st) := by
  induction fuel generalizing st with
  | zero => exact h
  | succ n ih =>
      unfold enforceCacheLimits
      split
      · exact ih (removeLeastRecentlyUsed_inv h 0)
      · exact h

/-! The guard in `getCachedImage` makes the emergency branch of
`trackMemoryUsage` unreachable: when the allocation fits, tracking is plain
addition. -/

theorem trackMemoryUsage_eq_add {b u : ℚ} (h : u + b ≤ MEMORY_LIMIT) :
    trackMemoryUsage b u = u + b := by
  simp only [trackMemoryUsage]
  by_cases hw : MEMORY_LIMIT * WARNING_THRESHOLD < u + b
  · rw [if_pos hw, if_neg (not_lt.mpr h)]
  · rw [if_neg hw]

/-! Stopping behavior of the eviction loop: when the live cache size is at
most 80% of `MAX_CACHE_SIZE`, `removeLeastRecentlyUsed(0)` exits at its first
iteration without removing anything, so the enforcement loop never changes the
state. -/

theorem removeLeastRecentlyUsed_zero_eq_self {st : SysState}
    (h : cacheSize st ≤ MAX_CACHE_SIZE * (0.8 : ℚ)) :
    removeLeastRecentlyUsed 0 st = st := by
  unfold removeLeastRecentlyUsed
  cases hs : sortByLastAccessed st.cache with
  | nil => rfl
  | cons a rest =>
      show removeLRUloop (a :: rest) 0 0 st = st
      unfold removeLRUloop
      rw [if_pos ⟨le_refl 0, h⟩]

theorem enforceCacheLimits_eq_self_of_small {st : SysState}
    (h : cacheSize st ≤ MAX_CACHE_SIZE * (0.8 : ℚ)) (fuel : ℕ) :
    enforceCacheLimits fuel st = st := by
  induction fuel with
  | zero => rfl
  | succ n ih =>
      unfold enforceCacheLimits
      split
      · rw [removeLeastRecentlyUsed_zero_eq_self h]; exact ih
      · rfl

theorem enforceCacheLimits_eq_self_of_ok {st : SysState}
    (h1 : st.cache.length ≤ MAX_CACHE_ENTRIES) (h2 : cacheSize st ≤ MAX_CACHE_SIZE)
    (fuel : ℕ) : enforceCacheLimits fuel st = st := by
  cases fuel with
  | zero => rfl
  | succ n =>
      unfold enforceCacheLimits
      have hng : ¬ (MAX_CACHE_ENTRIES < st.cache.length ∨ MAX_CACHE_SIZE < cacheSize st) := by
        push_neg
        exact ⟨h1, h2⟩
      rw [if_neg hng]

/-! Lemmas about the miss path. -/

theorem canAllocate_iff {b u : ℚ} : canAllocate b u = true ↔ u + b ≤ MEMORY_LIMIT := by
  simp [canAllocate]

theorem estimateImageSize_nonneg {fetchRes : Option ℚ} (h : ∀ s ∈ fetchRes, 0 ≤ s) :
    0 ≤ estimateImageSize fetchRes := by
  cases fetchRes with
  | none => norm_num [estimateImageSize]
  | some s => exact h s rfl

theorem chooseProcessed_spec (cr : Option (String × ℚ)) (uri : String) (est : ℚ) (b : Bool) :
    chooseProcessed cr uri est b = (uri, est) ∨
      ∃ c, cr = some c ∧ chooseProcessed cr uri est b = c ∧ c.2 < est * (0.8 : ℚ) := by
  unfold chooseProcessed
  cases b with
  | false => simp
  | true =>
      cases cr with
      | none => simp
      | some c =>
          by_cases hc : c.2 < est * (0.8 : ℚ)
          · exact Or.inr ⟨c, rfl, by simp [hc], hc⟩
          · simp [hc]

theorem missEntry_charge {cr : Option (String × ℚ)} (hcr : ∀ c ∈ cr, 0 ≤ c.2)
    {est : ℚ} (hest : 0 ≤ est) (uri : String) (b : Bool) (now : ℚ) :
    0 ≤ entryCharge (missEntry cr uri est b now) ∧
      entryCharge (missEntry cr uri est b now) ≤ est := by
  have h08 : est * (0.8 : ℚ) ≤ est := by nlinarith
  rcases chooseProcessed_spec cr uri est b with h | ⟨c, hceq, h, hlt⟩
  · simp [missEntry, entryCharge, h, jsOrQ]
    exact hest
  · by_cases hpu : c.1 = uri
    · simp [missEntry, entryCharge, h, hpu, jsOrQ]
      exact hest
    · by_cases hz : c.2 = 0
      · simp [missEntry, entryCharge, h, hpu, jsOrQ, hz]
        exact hest
      · simp [missEntry, entryCharge, h, hpu, jsOrQ, hz]
        have hc2 : 0 ≤ c.2 := hcr c (by rw [hceq]; rfl)
        exact ⟨hc2, le_trans (le_of_lt hlt) h08⟩

theorem cacheSizeList_nonneg {l : List (String × CachedImage)} (h : entriesOKList l) :
    0 ≤ cacheSizeList l := by
  induction l with
  | nil => simp [cacheSizeList]
  | cons kv rest ih =>
      simp only [cacheSizeList]
      have h1 : 0 ≤ entryCharge kv.2 := h kv (List.mem_cons_self _ _)
      have h2 : 0 ≤ cacheSizeList rest :=
        ih (fun x hx => h x (List.mem_cons_of_mem _ hx))
      linarith

theorem processAndCache_inv {st : SysState} (hinv : accountingInv st)
    {est : ℚ} (hest : 0 ≤ est)
    {cr : Option (String × ℚ)} (hcr : ∀ c ∈ cr, 0 ≤ c.2)
    (hca : st.usage + est ≤ MEMORY_LIMIT)
    (now : ℚ) (uri : String) (opts : CacheOptions) (fuel : ℕ) (key : String) :
    accountingInv (processAndCache now cr uri opts fuel key est st).2 := by
  obtain ⟨hok, hsz⟩ := hinv
  simp only [processAndCache]
  apply enforceCacheLimits_inv
  have hme := missEntry_charge hcr hest uri
    (opts.enableCompression && shouldCompress est opts.priority) now
  constructor
  · intro kv hkv
    rcases mem_mapSet_elim hkv with h1 | h2
    · rw [h1]
      exact hme.1
    · exact hok kv h2
  · simp only [cacheSize]
    rw [trackMemoryUsage_eq_add hca]
    simp only [cacheSize] at hsz
    cases hl : mapLookup key st.cache with
    | none =>
        rw [cacheSizeList_mapSet_none hl]
        linarith [hme.2]
    | some old =>
        rw [cacheSizeList_mapSet_some hl]
        have h0 : 0 ≤ entryCharge old := hok _ (mapLookup_mem hl)
        linarith [hme.2]

theorem getCachedImageMiss_inv {st : SysState} (hinv : accountingInv st)
    {fetchRes : Option ℚ} (hfr : ∀ s ∈ fetchRes, 0 ≤ s)
    {cr : Option (String × ℚ)} (hcr : ∀ c ∈ cr, 0 ≤ c.2)
    (now : ℚ) (uri : String) (opts : CacheOptions) (fuel : ℕ) (key : String) :
    accountingInv (getCachedImageMiss now fetchRes cr uri opts fuel key st).2 := by
  have hest := estimateImageSize_nonneg hfr
  simp only [getCachedImageMiss]
  split
  · next hca =>
      exact processAndCache_inv hinv hest hcr (canAllocate_iff.mp hca) now uri opts fuel key
  · split
    · next hca2 =>
        exact processAndCache_inv (cleanup_inv hinv now _) hest hcr
          (canAllocate_iff.mp hca2) now uri opts fuel key
    · exact cleanup_inv hinv now _

theorem clearAll_inv {st : SysState} (h : accountingInv st) :
    accountingInv (clearAll st) := by
  obtain ⟨hok, hsz⟩ := h
  have husage : 0 ≤ st.usage := le_trans (cacheSizeList_nonneg hok) hsz
  constructor
  · intro kv hkv
    simp [clearAll] at hkv
  · simp only [clearAll, cacheSize, cacheSizeList]
    have : ∀ (l : List (String × CachedImage)) (u : ℚ), 0 ≤ u →
        0 ≤ l.foldl (fun v kv => releaseMemory (entryCharge kv.2) v) u := by
      intro l
      induction l with
      | nil => intro u hu; exact hu
      | cons kv rest ih => intro u _; exact ih _ (releaseMemory_nonneg _ _)
    exact this st.cache st.usage husage

theorem getCachedImage_inv {st : SysState} (hinv : accountingInv st)
    {fetchRes : Option ℚ} (hfr : ∀ s ∈ fetchRes, 0 ≤ s)
    {cr : Option (String × ℚ)} (hcr : ∀ c ∈ cr, 0 ≤ c.2)
    (now : ℚ) (uri : String) (opts : CacheOptions) (fuel : ℕ) :
    accountingInv (getCachedImage now fetchRes cr uri opts fuel st).2 := by
  obtain ⟨hok, hsz⟩ := hinv
  simp only [getCachedImage]
  cases hl : mapLookup (opts.cacheKey.getD uri) st.cache with
  | none =>
      exact getCachedImageMiss_inv ⟨hok, hsz⟩ hfr hcr now uri opts fuel _
  | some cached =>
      by_cases hv : isCacheValid now cached = true
      · simp only [hv, if_true]
        constructor
        · intro kv hkv
          simp only at hkv
          rcases mem_mapSet_elim hkv with h1 | h2
          · rw [h1]
            have : 0 ≤ entryCharge cached := hok _ (mapLookup_mem hl)
            simpa [entryCharge] using this
          · exact hok kv h2
        · simp only [cacheSize]
          rw [cacheSizeList_mapSet_some hl]
          simp only [cacheSize] at hsz
          have hch : entryCharge
              { cached with accessCount := cached.accessCount + 1, lastAccessed := now } =
              entryCharge cached := by simp [entryCharge]
          rw [hch]
          linarith
      · simp only [Bool.not_eq_true] at hv
        simp only [hv, Bool.false_eq_true, if_false]
        exact getCachedImageMiss_inv ⟨hok, hsz⟩ hfr hcr now uri opts fuel _

/-! Claim theorems. -/

/-- Claim C6, counterexample: the round-trip law fails for starting usages
that the tracked bytes push over the limit.  From usage 60,000,000, tracking
50,000,000 bytes crosses the 100MB limit, so `trackMemoryUsage` force-releases
half (leaving 55,000,000); releasing the same 50,000,000 bytes then yields
5,000,000, not the original 60,000,000. -/
theorem c6_counterexample :
    releaseMemory 50000000 (trackMemoryUsage 50000000 60000000) ≠ 60000000 := by
  norm_num [trackMemoryUsage, releaseMemory, MEMORY_LIMIT, WARNING_THRESHOLD, max_def]

/-- Claim C6 (amended): `canAllocate(b)` is true exactly when
`current + b <= limit` (it is a pure query of the state), and the composition
`trackUsage(b)` then `releaseMemory(b)` returns the usage to its starting
value whenever the allocation fits within the limit (that is, whenever
`canAllocate(b)` held before tracking); when the tracked bytes push usage over
the limit the emergency half-release of `trackMemoryUsage` breaks the law. -/
theorem c6_canAllocate_and_roundtrip (u b : ℚ) :
    (canAllocate b u = true ↔ u + b ≤ MEMORY_LIMIT) ∧
      (0 ≤ u → u + b ≤ MEMORY_LIMIT → releaseMemory b (trackMemoryUsage b u) = u) := by
  refine ⟨canAllocate_iff, fun hu hl => ?_⟩
  rw [trackMemoryUsage_eq_add hl]
  simp only [releaseMemory, add_sub_cancel_right]
  exact max_eq_right hu

/-- Witness for C6 at usage 0 and 1,000 bytes. -/
theorem c6_witness : releaseMemory 1000 (trackMemoryUsage 1000 0) = 0 :=
  (c6_canAllocate_and_roundtrip 0 1000).2 (by norm_num) (by norm_num [MEMORY_LIMIT])

/-- Claim C9: after `forceCleanup` (whose body is `performCleanup`:
temp-file cleanup, `ImageMemoryManager.reset()`, `ImageCache.clearAll()`),
the cache statistics report zero entries and the memory manager reports zero
current usage, for every starting state with a non-empty cache (and entries
with nonnegative charges, as the code always produces). -/
theorem c9_forceCleanup_empties (st : SysState) (hne : st.cache ≠ [])
    (hok : entriesOKList st.cache) :
    (getCacheStats (performCleanup st)).entries = 0 ∧
      (getMemoryUsage (performCleanup st)).current = 0 := by
  constructor
  · simp [performCleanup, clearAll, getCacheStats]
  · simp only [performCleanup, clearAll, getMemoryUsage]
    have hz : ∀ (l : List (String × CachedImage)), (∀ kv ∈ l, 0 ≤ entryCharge kv.2) →
        l.foldl (fun v kv => releaseMemory (entryCharge kv.2) v) 0 = 0 := by
      intro l
      induction l with
      | nil => intro _; rfl
      | cons kv rest ih =>
          intro h
          simp only [List.foldl_cons]
          have h0 : releaseMemory (entryCharge kv.2) 0 = 0 := by
            simp only [releaseMemory, zero_sub]
            exact max_eq_left (by linarith [h kv (List.mem_cons_self _ _)])
          rw [h0]
          exact ih (fun x hx => h x (List.mem_cons_of_mem _ hx))
    exact hz st.cache hok

/-- Witness for C9 on a one-entry cache with usage 5. -/
theorem c9_witness :
    (getCacheStats (performCleanup
        ⟨[("k", ⟨"k", none, 5, none, 0, 1, 0⟩)], 5⟩)).entries = 0 ∧
      (getMemoryUsage (performCleanup
        ⟨[("k", ⟨"k", none, 5, none, 0, 1, 0⟩)], 5⟩)).current = 0 :=
  c9_forceCleanup_empties _ (by simp)
    (by intro kv hkv; simp at hkv; rw [hkv]; norm_num [entryCharge, jsOrQ])

/-- State reached by two real `getCachedImage` calls on the same key: the
first at time 0 inserts a 1,000-byte entry; the second at time 1,800,000 (the
expiry window) misses because the entry is expired, tracks another 1,000
bytes, and overwrites the entry without releasing the first entry's charge. -/
def overwriteTrace : SysState :=
  (getCachedImageRepo 1800000 (some 1000) "k" defaultOptions 1
    (getCachedImageRepo 0 (some 1000) "k" defaultOptions 1 initState).2).2

/-- Claim C1, counterexample: at the quiescent point after `overwriteTrace`
(no call in flight), the memory manager reports 2,000 bytes while the sum of
`(compressedSize ?? originalSize)` over the live entries is 1,000: the
invariant claimed by the spec does not hold, because the overwriting insertion
never released the replaced entry's accounted bytes. -/
theorem c1_counterexample : cacheSize overwriteTrace ≠ overwriteTrace.usage := by
  norm_num [overwriteTrace, getCachedImageRepo, getCachedImage, getCachedImageMiss,
    processAndCache, missEntry, chooseProcessed, compressImageModel, estimateImageSize,
    canAllocate, trackMemoryUsage, releaseMemory, shouldCompress, isCacheValid,
    mapLookup, mapSet, mapDelete, enforceCacheLimits, removeLeastRecentlyUsed,
    removeLRUloop, sortByLastAccessed, insertByLastAccessed, cleanup,
    removeExpiredEntries, clearImage, memoryPercentage, cacheSize, cacheSizeList,
    entryCharge, jsOrQ, jsOrStr, initState, defaultOptions, MEMORY_LIMIT,
    MAX_CACHE_SIZE, MAX_CACHE_ENTRIES, WARNING_THRESHOLD, CACHE_EXPIRY_MS, max_def]

/-! Unfolding lemmas for symbolic reasoning about a single call. -/

theorem mapLookup_mapSet_self {k : String} {v : CachedImage} :
    ∀ {l : List (String × CachedImage)}, mapLookup k (mapSet k v l) = some v := by
  intro l
  induction l with
  | nil => simp [mapSet, mapLookup]
  | cons kv rest ih =>
      by_cases hk : kv.1 = k
      · simp [mapSet, hk, mapLookup]
      · simp [mapSet, hk, mapLookup, ih]

theorem getCachedImage_eq_miss_of_none {now : ℚ} {fetchRes : Option ℚ}
    {cr : Option (String × ℚ)} {uri key : String} {opts : CacheOptions} {fuel : ℕ}
    {st : SysState} (hkey : opts.cacheKey.getD uri = key)
    (hl : mapLookup key st.cache = none) :
    getCachedImage now fetchRes cr uri opts fuel st =
      getCachedImageMiss now fetchRes cr uri opts fuel key st := by
  simp only [getCachedImage, hkey, hl]

theorem getCachedImage_eq_miss_of_expired {now : ℚ} {fetchRes : Option ℚ}
    {cr : Option (String × ℚ)} {uri key : String} {opts : CacheOptions} {fuel : ℕ}
    {st : SysState} {old : CachedImage} (hkey : opts.cacheKey.getD uri = key)
    (hl : mapLookup key st.cache = some old) (hv : isCacheValid now old = false) :
    getCachedImage now fetchRes cr uri opts fuel st =
      getCachedImageMiss now fetchRes cr uri opts fuel key st := by
  simp only [getCachedImage, hkey, hl]
  rw [if_neg (by rw [hv]; exact Bool.false_ne_true)]

theorem getCachedImageMiss_fits {now : ℚ} {fetchRes : Option ℚ}
    {cr : Option (String × ℚ)} {uri key : String} {opts : CacheOptions} {fuel : ℕ}
    {st : SysState} (hfit : st.usage + estimateImageSize fetchRes ≤ MEMORY_LIMIT) :
    getCachedImageMiss now fetchRes cr uri opts fuel key st =
      (⟨(chooseProcessed cr uri (estimateImageSize fetchRes)
            (opts.enableCompression && shouldCompress (estimateImageSize fetchRes)
              opts.priority)).1,
        (chooseProcessed cr uri (estimateImageSize fetchRes)
            (opts.enableCompression && shouldCompress (estimateImageSize fetchRes)
              opts.priority)).2, false⟩,
       enforceCacheLimits fuel
         ⟨mapSet key
            (missEntry cr uri (estimateImageSize fetchRes)
              (opts.enableCompression && shouldCompress (estimateImageSize fetchRes)
                opts.priority) now)
            st.cache,
          st.usage + estimateImageSize fetchRes⟩) := by
  have hca : canAllocate (estimateImageSize fetchRes) st.usage = true :=
    canAllocate_iff.mpr hfit
  simp only [getCachedImageMiss]
  rw [if_pos hca]
  simp only [processAndCache]
  rw [trackMemoryUsage_eq_add hfit]

/-- Claim C1 (amended): the memory manager never undercounts the live cache:
the invariant (all entry charges nonnegative and) sum of
`(compressedSize ?? originalSize)` over live entries at most the accountant's
current usage is preserved by `getCachedImage`, `clearImage`, `clearAll` and
`cleanup`.  Equality, as claimed by the spec, does not hold: an overwriting
insertion leaks the replaced entry's accounted bytes (see the counterexample),
so the usage is only an over-approximation of the live cache's footprint. -/
theorem c1_amended_usage_overapproximates
    (st : SysState) (hinv : accountingInv st)
    (now r : ℚ) (fetchRes : Option ℚ) (hfr : ∀ s ∈ fetchRes, 0 ≤ s)
    (cr : Option (String × ℚ)) (hcr : ∀ c ∈ cr, 0 ≤ c.2)
    (uri k : String) (opts : CacheOptions) (fuel : ℕ) :
    accountingInv (getCachedImage now fetchRes cr uri opts fuel st).2 ∧
      accountingInv (clearImage k st) ∧
      accountingInv (clearAll st) ∧
      accountingInv (cleanup now r st) :=
  ⟨getCachedImage_inv hinv hfr hcr now uri opts fuel,
   clearImage_inv hinv k, clearAll_inv hinv, cleanup_inv hinv now r⟩

/-- Witness for C1 (amended) from the empty initial state. -/
theorem c1_witness :
    accountingInv (getCachedImage 0 (some 1000) none "a" defaultOptions 1 initState).2 :=
  (c1_amended_usage_overapproximates initState
    ⟨by intro kv h; simp [initState] at h, by norm_num [cacheSize, cacheSizeList, initState]⟩
    0 0 (some 1000)
    (by intro s hs; simp only [Option.mem_def, Option.some.injEq] at hs; subst hs; norm_num)
    none (by intro c hc; simp at hc)
    "a" "a" defaultOptions 1).1

/-- Claim C2, counterexample: after the two back-to-back misses of
`overwriteTrace` (each tracking 1,000 bytes for the same key), the accountant
holds 2,000 bytes, not the 1,000 it would hold had the second insertion
released the first miss's accounted bytes as the claim states. -/
theorem c2_counterexample :
    overwriteTrace.usage = 2000 ∧ overwriteTrace.usage ≠ 1000 := by
  norm_num [overwriteTrace, getCachedImageRepo, getCachedImage, getCachedImageMiss,
    processAndCache, missEntry, chooseProcessed, compressImageModel, estimateImageSize,
    canAllocate, trackMemoryUsage, releaseMemory, shouldCompress, isCacheValid,
    mapLookup, mapSet, mapDelete, enforceCacheLimits, removeLeastRecentlyUsed,
    removeLRUloop, sortByLastAccessed, insertByLastAccessed, cleanup,
    removeExpiredEntries, clearImage, memoryPercentage, cacheSize, cacheSizeList,
    entryCharge, jsOrQ, jsOrStr, initState, defaultOptions, MEMORY_LIMIT,
    MAX_CACHE_SIZE, MAX_CACHE_ENTRIES, WARNING_THRESHOLD, CACHE_EXPIRY_MS, max_def]

/-- Claim C2 (amended): inserting a new cache entry at a key that already
holds a live (here: expired) entry replaces the prior entry WITHOUT releasing
the prior entry's accounted bytes: the accountant grows by the full new
estimate and the old charge is never subtracted, so back-to-back misses for
the same key leak the first miss's accounting.  (The spec's claimed release
step does not exist in `ImageCache.cache.set`.) -/
theorem c2_amended_overwrite_no_release
    (st : SysState) (uri key : String) (opts : CacheOptions)
    (hkey : opts.cacheKey.getD uri = key)
    (old : CachedImage) (hold : mapLookup key st.cache = some old)
    (now : ℚ) (hexp : isCacheValid now old = false)
    (est : ℚ) (hfit : st.usage + est ≤ MEMORY_LIMIT)
    (cr : Option (String × ℚ))
    (hnc : (opts.enableCompression && shouldCompress est opts.priority) = false)
    (hsmall : cacheSizeList st.cache - entryCharge old + est ≤ MAX_CACHE_SIZE * (0.8 : ℚ))
    (fuel : ℕ) :
    (getCachedImage now (some est) cr uri opts fuel st).2.usage = st.usage + est ∧
      mapLookup key (getCachedImage now (some est) cr uri opts fuel st).2.cache =
        some ⟨uri, none, est, none, now, 1, now⟩ := by
  have hfit2 : st.usage + estimateImageSize (some est) ≤ MEMORY_LIMIT := hfit
  rw [getCachedImage_eq_miss_of_expired hkey hold hexp, getCachedImageMiss_fits hfit2]
  simp only [estimateImageSize]
  rw [hnc]
  have hentry : missEntry cr uri est false now = ⟨uri, none, est, none, now, 1, now⟩ := by
    simp [missEntry, chooseProcessed]
  rw [hentry]
  have hsz2 : cacheSize ⟨mapSet key (⟨uri, none, est, none, now, 1, now⟩ : CachedImage)
      st.cache, st.usage + est⟩ ≤ MAX_CACHE_SIZE * (0.8 : ℚ) := by
    simp only [cacheSize]
    rw [cacheSizeList_mapSet_some hold]
    simpa [entryCharge, jsOrQ] using hsmall
  rw [enforceCacheLimits_eq_self_of_small hsz2]
  exact ⟨rfl, mapLookup_mapSet_self⟩

/-- Witness for C2 (amended): a concrete expired entry at key k is overwritten
and the accountant ends at 1000 + 1000. -/
theorem c2_witness :
    (getCachedImage 1800000 (some 1000) none "k" defaultOptions 1
        ⟨[("k", ⟨"k", none, 1000, none, 0, 1, 0⟩)], 1000⟩).2.usage = 1000 + 1000 ∧
      mapLookup "k" (getCachedImage 1800000 (some 1000) none "k" defaultOptions 1
        ⟨[("k", ⟨"k", none, 1000, none, 0, 1, 0⟩)], 1000⟩).2.cache =
        some ⟨"k", none, 1000, none, 1800000, 1, 1800000⟩ :=
  c2_amended_overwrite_no_release _ "k" "k" defaultOptions rfl
    ⟨"k", none, 1000, none, 0, 1, 0⟩
    (by norm_num [mapLookup]) 1800000
    (by norm_num [isCacheValid, CACHE_EXPIRY_MS]) 1000
    (by norm_num [MEMORY_LIMIT]) none
    (by norm_num [defaultOptions, shouldCompress])
    (by norm_num [cacheSizeList, entryCharge, jsOrQ, MAX_CACHE_SIZE]) 1

/-- Repository composition fact: the pass-through `compressImage` always
returns the original reference, so the processed reference of a miss is always
the original URI. -/
theorem chooseProcessed_repo_fst (uri : String) (f : Option ℚ) (est : ℚ) (dc : Bool) :
    (chooseProcessed (some (compressImageModel uri f)) uri est dc).1 = uri := by
  cases dc with
  | false => rfl
  | true =>
      cases f with
      | none =>
          simp only [chooseProcessed, compressImageModel]
          by_cases h : (0 : ℚ) < est * (0.8 : ℚ)
          · simp [h]
          · simp [h]
      | some s =>
          simp only [chooseProcessed, compressImageModel]
          by_cases h : s < est * (0.8 : ℚ)
          · simp [h]
          · simp [h]

/-- Claim C5, counterexample: a URI whose fetch fails during size estimation
does not make `getCachedImage` reject; the call returns normally with the
original reference, the 1MB default size and `fromCache: false` (the claimed
SourceUnreachable propagation path does not exist: `estimateImageSize`
swallows the fetch failure). -/
theorem c5_counterexample :
    (getCachedImageRepo 0 none "img.png" defaultOptions 1 initState).1 =
      ⟨"img.png", 1048576, false⟩ := by
  norm_num [getCachedImageRepo, getCachedImage, getCachedImageMiss,
    processAndCache, missEntry, chooseProcessed, compressImageModel, estimateImageSize,
    canAllocate, trackMemoryUsage, releaseMemory, shouldCompress, isCacheValid,
    mapLookup, mapSet, mapDelete, enforceCacheLimits, removeLeastRecentlyUsed,
    removeLRUloop, sortByLastAccessed, insertByLastAccessed, cleanup,
    removeExpiredEntries, clearImage, memoryPercentage, cacheSize, cacheSizeList,
    entryCharge, jsOrQ, jsOrStr, initState, defaultOptions, MEMORY_LIMIT,
    MAX_CACHE_SIZE, MAX_CACHE_ENTRIES, WARNING_THRESHOLD, CACHE_EXPIRY_MS, max_def]

/-- Claim C5 (amended): an unfetchable source during initial size estimation
is never propagated to the caller: on a cache miss the call resolves (for any
options and any starting state) with the original reference and
`fromCache: false`, because `estimateImageSize` replaces the failure with the
1MB default and the repository's `compressImage` never yields a different
reference.  There is no SourceUnreachable error in `ImageCache`. -/
theorem c5_amended_no_propagation
    (st : SysState) (uri key : String) (opts : CacheOptions)
    (hkey : opts.cacheKey.getD uri = key)
    (hl : mapLookup key st.cache = none)
    (now : ℚ) (fuel : ℕ) :
    (getCachedImageRepo now none uri opts fuel st).1.uri = uri ∧
      (getCachedImageRepo now none uri opts fuel st).1.fromCache = false := by
  rw [getCachedImageRepo, getCachedImage_eq_miss_of_none hkey hl]
  simp only [getCachedImageMiss]
  split
  · simp only [processAndCache]
    constructor
    · exact chooseProcessed_repo_fst uri none _ _
    · trivial
  · split
    · simp only [processAndCache]
      constructor
      · exact chooseProcessed_repo_fst uri none _ _
      · trivial
    · exact ⟨rfl, rfl⟩

/-- Witness for C5 (amended) at a concrete miss. -/
theorem c5_witness :
    (getCachedImageRepo 7 none "a.png" defaultOptions 2 initState).1.uri = "a.png" ∧
      (getCachedImageRepo 7 none "a.png" defaultOptions 2 initState).1.fromCache = false :=
  c5_amended_no_propagation initState "a.png" "a.png" defaultOptions rfl rfl 7 2

/-- Second component of the compression decision when compression runs: the
compressed size is adopted iff it is strictly below 80% of the estimate. -/
theorem chooseProcessed_snd_true (curi uri : String) (cs est : ℚ) :
    (chooseProcessed (some (curi, cs)) uri est true).2 =
      if cs < est * (0.8 : ℚ) then cs else est := by
  by_cases h : cs < est * (0.8 : ℚ)
  · simp [chooseProcessed, h]
  · simp [chooseProcessed, h]

/-- The `compressedSize` recorded in the inserted entry: present only when the
compressed size was adopted AND the compressed reference differs from the
original URI. -/
theorem missEntry_compressedSize_true (curi uri : String) (cs est now : ℚ) :
    (missEntry (some (curi, cs)) uri est true now).compressedSize =
      if cs < est * (0.8 : ℚ) ∧ ¬ curi = uri then some cs else none := by
  by_cases hc : cs < est * (0.8 : ℚ)
  · by_cases hu : curi = uri
    · simp [missEntry, chooseProcessed, hc, hu]
    · simp [missEntry, chooseProcessed, hc, hu]
  · simp [missEntry, chooseProcessed, hc]

/-- Claim C7, counterexample: compressing a 1,000,000-byte image to 700,000
bytes (a 30% reduction, achieved here by the repository's own pass-through
`compressImage` observing a second fetch of 700,000 bytes) is NOT adopted into
the cache entry: the returned size is 700,000 but the entry's
`compressedSize` is absent, because the pass-through compressor returns the
original reference and the entry only records compressed fields when the
reference changed.  The claim's `compressedSize = 700000` is false. -/
theorem c7_counterexample :
    ((getCachedImage 0 (some 1000000) (some (compressImageModel "img.jpg" (some 700000)))
        "img.jpg" ⟨true, none, Priority.high⟩ 1 initState).1.size = 700000) ∧
      ((mapLookup "img.jpg"
          (getCachedImage 0 (some 1000000) (some (compressImageModel "img.jpg" (some 700000)))
            "img.jpg" ⟨true, none, Priority.high⟩ 1 initState).2.cache).map
        CachedImage.compressedSize = some none) := by
  norm_num [getCachedImage, getCachedImageMiss,
    processAndCache, missEntry, chooseProcessed, compressImageModel, estimateImageSize,
    canAllocate, trackMemoryUsage, releaseMemory, shouldCompress, isCacheValid,
    mapLookup, mapSet, mapDelete, enforceCacheLimits, removeLeastRecentlyUsed,
    removeLRUloop, sortByLastAccessed, insertByLastAccessed, cleanup,
    removeExpiredEntries, clearImage, memoryPercentage, cacheSize, cacheSizeList,
    entryCharge, jsOrQ, jsOrStr, initState, MEMORY_LIMIT,
    MAX_CACHE_SIZE, MAX_CACHE_ENTRIES, WARNING_THRESHOLD, CACHE_EXPIRY_MS, max_def]

/-- Claim C7 (amended): when compression runs inside `getCachedImage` (cache
miss, allocation fits, compression enabled and the priority threshold
exceeded), the compressed result's size is adopted as the returned size iff it
is STRICTLY below 80% of the estimated size (strictly more than 20%
reduction; at exactly 20% it is rejected), and the entry records
`compressedSize` only when additionally the compressed reference differs from
the original URI — which the repository's pass-through `compressImage` never
produces. -/
theorem c7_amended_adoption_rule
    (st : SysState) (uri key : String) (opts : CacheOptions)
    (hkey : opts.cacheKey.getD uri = key)
    (hl : mapLookup key st.cache = none)
    (est : ℚ) (hest : 0 ≤ est)
    (curi : String) (cs : ℚ) (hcs : 0 ≤ cs)
    (hfit : st.usage + est ≤ MEMORY_LIMIT)
    (hcomp : (opts.enableCompression && shouldCompress est opts.priority) = true)
    (hcount : st.cache.length < MAX_CACHE_ENTRIES)
    (hsz : cacheSizeList st.cache + est ≤ MAX_CACHE_SIZE)
    (now : ℚ) (fuel : ℕ) :
    ((getCachedImage now (some est) (some (curi, cs)) uri opts fuel st).1.size =
        if cs < est * (0.8 : ℚ) then cs else est) ∧
      ((mapLookup key
          (getCachedImage now (some est) (some (curi, cs)) uri opts fuel st).2.cache).map
        CachedImage.compressedSize =
          some (if cs < est * (0.8 : ℚ) ∧ ¬ curi = uri then some cs else none)) := by
  have hfit2 : st.usage + estimateImageSize (some est) ≤ MEMORY_LIMIT := hfit
  rw [getCachedImage_eq_miss_of_none hkey hl, getCachedImageMiss_fits hfit2]
  simp only [estimateImageSize]
  rw [hcomp]
  have hcr2 : ∀ c ∈ (some (curi, cs) : Option (String × ℚ)), 0 ≤ c.2 := by
    intro c hc2
    simp only [Option.mem_def, Option.some.injEq] at hc2
    rw [← hc2]
    exact hcs
  have hme := missEntry_charge hcr2 hest uri true now
  have hlen : (mapSet key (missEntry (some (curi, cs)) uri est true now) st.cache).length ≤
      MAX_CACHE_ENTRIES := by
    rw [length_mapSet_of_lookup_none hl]
    omega
  have hbig : cacheSize ⟨mapSet key (missEntry (some (curi, cs)) uri est true now) st.cache,
      st.usage + est⟩ ≤ MAX_CACHE_SIZE := by
    simp only [cacheSize]
    rw [cacheSizeList_mapSet_none hl]
    linarith [hme.2]
  rw [enforceCacheLimits_eq_self_of_ok hlen hbig]
  constructor
  · exact chooseProcessed_snd_true curi uri cs est
  · rw [mapLookup_mapSet_self]
    simp only [Option.map_some']
    rw [missEntry_compressedSize_true]

/-- Witness for C7 (amended): a hypothetical compressor result of 700,000
bytes under a different reference is adopted (returned size 700,000 and
`compressedSize` populated). -/
theorem c7_witness :
    ((getCachedImage 0 (some 1000000) (some ("c.jpg", 700000)) "img.jpg"
        ⟨true, none, Priority.high⟩ 1 initState).1.size =
        if (700000 : ℚ) < 1000000 * (0.8 : ℚ) then 700000 else 1000000) ∧
      ((mapLookup "img.jpg"
          (getCachedImage 0 (some 1000000) (some ("c.jpg", 700000)) "img.jpg"
            ⟨true, none, Priority.high⟩ 1 initState).2.cache).map
        CachedImage.compressedSize =
          some (if (700000 : ℚ) < 1000000 * (0.8 : ℚ) ∧ ¬ "c.jpg" = "img.jpg"
            then some 700000 else none)) :=
  c7_amended_adoption_rule initState "img.jpg" "img.jpg" ⟨true, none, Priority.high⟩ rfl rfl
    1000000 (by norm_num) "c.jpg" 700000 (by norm_num)
    (by norm_num [MEMORY_LIMIT, initState])
    (by norm_num [shouldCompress])
    (by norm_num [initState, MAX_CACHE_ENTRIES])
    (by norm_num [initState, cacheSizeList, MAX_CACHE_SIZE]) 0 1

/-- Claim C8 (amended): on a live, unexpired entry, `getCachedImage` takes the
hit path: it returns the compressed reference and size when present (falling
back to the original), `fromCache: true`, bumps the entry's `accessCount` by
exactly one, sets its `lastAccessed` to the current time, and leaves the
memory manager's usage completely unchanged.  (The spec's further claim that
this is the ONLY success path that does not touch the accountant is refuted by
the separate counterexample.) -/
theorem c8_amended_hit_path
    (st : SysState) (uri key : String) (opts : CacheOptions)
    (hkey : opts.cacheKey.getD uri = key)
    (c : CachedImage) (hl : mapLookup key st.cache = some c)
    (now : ℚ) (hv : isCacheValid now c = true)
    (fetchRes : Option ℚ) (cr : Option (String × ℚ)) (fuel : ℕ) :
    getCachedImage now fetchRes cr uri opts fuel st =
      (⟨jsOrStr c.compressedUri c.uri, jsOrQ c.compressedSize c.size, true⟩,
       ⟨mapSet key { c with accessCount := c.accessCount + 1, lastAccessed := now } st.cache,
        st.usage⟩) := by
  simp only [getCachedImage, hkey, hl]
  rw [if_pos hv]

/-- Witness for C8 (amended) on a concrete one-entry cache. -/
theorem c8_witness :
    getCachedImage 5 none none "k" defaultOptions 1
        ⟨[("k", ⟨"k", none, 1000, none, 0, 2, 0⟩)], 1000⟩ =
      (⟨jsOrStr none "k", jsOrQ none 1000, true⟩,
       ⟨mapSet "k" ⟨"k", none, 1000, none, 0, 3, 5⟩ [("k", ⟨"k", none, 1000, none, 0, 2, 0⟩)],
        1000⟩) :=
  c8_amended_hit_path _ "k" "k" defaultOptions rfl ⟨"k", none, 1000, none, 0, 2, 0⟩
    (by norm_num [mapLookup]) 5 (by norm_num [isCacheValid, CACHE_EXPIRY_MS]) none none 1

/-- State reached by four real calls: two same-key misses leak 1,000 bytes of
accounting (see `overwriteTrace`), `clearImage` then empties the cache while
usage stays at 1,000.  This is `c8preState` (empty cache, usage 1,000). -/
def c8preState : SysState := clearImage "k" overwriteTrace

/-- Claim C8, counterexample to the uniqueness clause: from `c8preState` a
request whose estimated size (104,857,600 bytes) cannot be allocated even
after cleanup succeeds (resolves with `fromCache: false`) while leaving the
memory manager's usage bit-for-bit unchanged and nonzero — a second success
path that does not touch the accountant. -/
theorem c8_counterexample :
    ((getCachedImageRepo 1800000 (some 104857600) "big" defaultOptions 1
        c8preState).1.fromCache = false) ∧
      ((getCachedImageRepo 1800000 (some 104857600) "big" defaultOptions 1
          c8preState).2.usage = c8preState.usage) ∧
      c8preState.usage ≠ 0 := by
  norm_num [c8preState, overwriteTrace, getCachedImageRepo, getCachedImage,
    getCachedImageMiss, processAndCache, missEntry, chooseProcessed, compressImageModel,
    estimateImageSize, canAllocate, trackMemoryUsage, releaseMemory, shouldCompress,
    isCacheValid, mapLookup, mapSet, mapDelete, enforceCacheLimits,
    removeLeastRecentlyUsed, removeLRUloop, sortByLastAccessed, insertByLastAccessed,
    cleanup, removeExpiredEntries, clearImage, memoryPercentage, cacheSize,
    cacheSizeList, entryCharge, jsOrQ, jsOrStr, initState, defaultOptions,
    MEMORY_LIMIT, MAX_CACHE_SIZE, MAX_CACHE_ENTRIES, WARNING_THRESHOLD,
    CACHE_EXPIRY_MS, max_def]

/-- Normal-regime behavior of a fetch-failing miss under default options: the
estimate falls back to exactly 1,048,576 bytes, a cache entry for the
unreachable URI is created (tracked at the 1MB default), and the call resolves
with the original URI, size 1,048,576 and `fromCache: false`, provided the 1MB
allocation fits the memory limit and the cache limits. -/
theorem fetchFailureMissNormalRegime
    (st : SysState) (uri : String)
    (hl : mapLookup uri st.cache = none)
    (hfit : st.usage + 1048576 ≤ MEMORY_LIMIT)
    (hcount : st.cache.length < MAX_CACHE_ENTRIES)
    (hsz : cacheSizeList st.cache + 1048576 ≤ MAX_CACHE_SIZE)
    (now : ℚ) (fuel : ℕ) :
    getCachedImageRepo now none uri defaultOptions fuel st =
      (⟨uri, 1048576, false⟩,
       ⟨mapSet uri (⟨uri, none, 1048576, none, now, 1, now⟩ : CachedImage) st.cache,
        st.usage + 1048576⟩) := by
  have hen : estimateImageSize (none : Option ℚ) = 1048576 := by
    norm_num [estimateImageSize]
  have hfit2 : st.usage + estimateImageSize (none : Option ℚ) ≤ MEMORY_LIMIT := by
    rw [hen]; exact hfit
  rw [getCachedImageRepo,
    getCachedImage_eq_miss_of_none (show defaultOptions.cacheKey.getD uri = uri from rfl) hl,
    getCachedImageMiss_fits hfit2]
  rw [hen]
  have hb : (defaultOptions.enableCompression &&
      shouldCompress (1048576 : ℚ) defaultOptions.priority) = false := by
    norm_num [defaultOptions, shouldCompress]
  rw [hb]
  have hentry : missEntry (some (compressImageModel uri none)) uri 1048576 false now =
      ⟨uri, none, 1048576, none, now, 1, now⟩ := by
    simp [missEntry, chooseProcessed]
  rw [hentry]
  have hres : chooseProcessed (some (compressImageModel uri none)) uri 1048576 false =
      (uri, 1048576) := by
    simp [chooseProcessed]
  rw [hres]
  have hlen : (mapSet uri (⟨uri, none, 1048576, none, now, 1, now⟩ : CachedImage)
      st.cache).length ≤ MAX_CACHE_ENTRIES := by
    rw [length_mapSet_of_lookup_none hl]
    omega
  have hbig : cacheSize ⟨mapSet uri (⟨uri, none, 1048576, none, now, 1, now⟩ : CachedImage)
      st.cache, st.usage + 1048576⟩ ≤ MAX_CACHE_SIZE := by
    simp only [cacheSize]
    rw [cacheSizeList_mapSet_none hl]
    have : entryCharge (⟨uri, none, 1048576, none, now, 1, now⟩ : CachedImage) = 1048576 := by
      norm_num [entryCharge, jsOrQ]
    rw [this]
    exact hsz
  rw [Prod.mk.injEq]
  refine ⟨rfl, ?_⟩
  exact enforceCacheLimits_eq_self_of_ok hlen hbig fuel


/-- Cache state holding twenty distinct 1MB entries (keys k0..k19, each
inserted at time i with `lastAccessedAt = i`), with the accountant at
20 * 1,048,576 bytes: the state reached by twenty successful 1MB insertions. -/
def st20 : SysState :=
  ⟨[
    ("k0", ⟨"k0", none, 1048576, none, 0, 1, 0⟩),
    ("k1", ⟨"k1", none, 1048576, none, 1, 1, 1⟩),
    ("k2", ⟨"k2", none, 1048576, none, 2, 1, 2⟩),
    ("k3", ⟨"k3", none, 1048576, none, 3, 1, 3⟩),
    ("k4", ⟨"k4", none, 1048576, none, 4, 1, 4⟩),
    ("k5", ⟨"k5", none, 1048576, none, 5, 1, 5⟩),
    ("k6", ⟨"k6", none, 1048576, none, 6, 1, 6⟩),
    ("k7", ⟨"k7", none, 1048576, none, 7, 1, 7⟩),
    ("k8", ⟨"k8", none, 1048576, none, 8, 1, 8⟩),
    ("k9", ⟨"k9", none, 1048576, none, 9, 1, 9⟩),
    ("k10", ⟨"k10", none, 1048576, none, 10, 1, 10⟩),
    ("k11", ⟨"k11", none, 1048576, none, 11, 1, 11⟩),
    ("k12", ⟨"k12", none, 1048576, none, 12, 1, 12⟩),
    ("k13", ⟨"k13", none, 1048576, none, 13, 1, 13⟩),
    ("k14", ⟨"k14", none, 1048576, none, 14, 1, 14⟩),
    ("k15", ⟨"k15", none, 1048576, none, 15, 1, 15⟩),
    ("k16", ⟨"k16", none, 1048576, none, 16, 1, 16⟩),
    ("k17", ⟨"k17", none, 1048576, none, 17, 1, 17⟩),
    ("k18", ⟨"k18", none, 1048576, none, 18, 1, 18⟩),
    ("k19", ⟨"k19", none, 1048576, none, 19, 1, 19⟩)
   ], 20971520⟩

/-- The state after the twenty-first 1MB insertion (key k20 at time 20):
21 entries, 22,020,096 bytes of cache, and the accountant at 22,020,096. -/
def st21 : SysState :=
  ⟨[
    ("k0", ⟨"k0", none, 1048576, none, 0, 1, 0⟩),
    ("k1", ⟨"k1", none, 1048576, none, 1, 1, 1⟩),
    ("k2", ⟨"k2", none, 1048576, none, 2, 1, 2⟩),
    ("k3", ⟨"k3", none, 1048576, none, 3, 1, 3⟩),
    ("k4", ⟨"k4", none, 1048576, none, 4, 1, 4⟩),
    ("k5", ⟨"k5", none, 1048576, none, 5, 1, 5⟩),
    ("k6", ⟨"k6", none, 1048576, none, 6, 1, 6⟩),
    ("k7", ⟨"k7", none, 1048576, none, 7, 1, 7⟩),
    ("k8", ⟨"k8", none, 1048576, none, 8, 1, 8⟩),
    ("k9", ⟨"k9", none, 1048576, none, 9, 1, 9⟩),
    ("k10", ⟨"k10", none, 1048576, none, 10, 1, 10⟩),
    ("k11", ⟨"k11", none, 1048576, none, 11, 1, 11⟩),
    ("k12", ⟨"k12", none, 1048576, none, 12, 1, 12⟩),
    ("k13", ⟨"k13", none, 1048576, none, 13, 1, 13⟩),
    ("k14", ⟨"k14", none, 1048576, none, 14, 1, 14⟩),
    ("k15", ⟨"k15", none, 1048576, none, 15, 1, 15⟩),
    ("k16", ⟨"k16", none, 1048576, none, 16, 1, 16⟩),
    ("k17", ⟨"k17", none, 1048576, none, 17, 1, 17⟩),
    ("k18", ⟨"k18", none, 1048576, none, 18, 1, 18⟩),
    ("k19", ⟨"k19", none, 1048576, none, 19, 1, 19⟩),
    ("k20", ⟨"k20", none, 1048576, none, 20, 1, 20⟩)
   ], 22020096⟩

/-- The 21-entry state is below the 80% safety margin of `MAX_CACHE_SIZE`
(22,020,096 <= 41,943,040), which makes `removeLeastRecentlyUsed(0)` exit
immediately without removing anything. -/
theorem st21_small : cacheSize st21 ≤ MAX_CACHE_SIZE * (0.8 : ℚ) := by
  norm_num [cacheSize, cacheSizeList, entryCharge, jsOrQ, st21, MAX_CACHE_SIZE]

/-- Claim C3: inserting a twenty-first distinct 1MB entry into a cache holding
twenty 1MB entries does NOT leave twenty entries: for every amount of loop
fuel, all 21 entries remain after the call, because `enforceCacheLimits`
iterates `removeLeastRecentlyUsed()` which removes nothing (the total size is
under the 80% margin and `requiredBytes` is 0), i.e. the while loop never
terminates in the real code. -/
theorem c3_code_evaluation : ∀ fuel : ℕ,
    ((getCachedImageRepo 20 (some 1048576) "k20" defaultOptions fuel st20).2).cache.length =
      21 := by
  intro fuel
  have h1 : getCachedImageRepo 20 (some 1048576) "k20" defaultOptions fuel st20 =
      (⟨"k20", 1048576, false⟩, enforceCacheLimits fuel st21) := by
    simp [getCachedImageRepo, getCachedImage, getCachedImageMiss, processAndCache,
      missEntry, chooseProcessed, compressImageModel, estimateImageSize, canAllocate,
      trackMemoryUsage, shouldCompress, isCacheValid, mapLookup, mapSet,
      defaultOptions, st20, st21, MEMORY_LIMIT, WARNING_THRESHOLD, CACHE_EXPIRY_MS,
      max_def] <;> norm_num
  rw [h1]
  show (enforceCacheLimits fuel st21).cache.length = 21
  rw [enforceCacheLimits_eq_self_of_small st21_small fuel]
  rfl

/-- Claim C4: the post-insertion limit-enforcement loop does NOT terminate for
every cache state: on the reachable 21-entry state `st21` the entry count
exceeds the maximum, yet every iteration removes zero entries (the
`removeLeastRecentlyUsed` break condition holds at its first step since the
total size is at most 80% of `MAX_CACHE_SIZE` and `requiredBytes` is 0), so
for every amount of fuel the loop guard still holds and the state is
unchanged — the while loop of `enforceCacheLimits` spins forever. -/
theorem c4_code_evaluation :
    (∀ fuel : ℕ, enforceCacheLimits fuel st21 = st21) ∧
      MAX_CACHE_ENTRIES < st21.cache.length :=
  ⟨fun fuel => enforceCacheLimits_eq_self_of_small st21_small fuel,
   by norm_num [st21, MAX_CACHE_ENTRIES]⟩

/-! Lemmas for C10's insufficient-memory regime: the release-side operations
never create entries, so a key absent from the cache stays absent through
`cleanup`. -/

theorem mapLookup_none_mapDelete {k j : String} :
    ∀ {l : List (String × CachedImage)}, mapLookup k l = none →
      mapLookup k (mapDelete j l) = none := by
  intro l
  induction l with
  | nil => intro _; rfl
  | cons kv rest ih =>
      intro h
      by_cases hk : kv.1 = k
      · simp [mapLookup, hk] at h
      · simp only [mapLookup, if_neg hk] at h
        by_cases hj : kv.1 = j
        · simp only [mapDelete, if_pos hj]
          exact h
        · simp only [mapDelete, if_neg hj, mapLookup, if_neg hk]
          exact ih h

theorem mapLookup_none_clearImage {k : String} {st : SysState}
    (h : mapLookup k st.cache = none) (j : String) :
    mapLookup k (clearImage j st).cache = none := by
  cases hl : mapLookup j st.cache with
  | none => simpa [clearImage, hl] using h
  | some c =>
      simp only [clearImage, hl]
      exact mapLookup_none_mapDelete h

theorem mapLookup_none_foldl_clearImage {k : String} {st : SysState}
    (h : mapLookup k st.cache = none) (ks : List String) :
    mapLookup k ((ks.foldl (fun s j => clearImage j s) st)).cache = none := by
  induction ks generalizing st with
  | nil => exact h
  | cons j rest ih => exact ih (mapLookup_none_clearImage h j)

theorem mapLookup_none_removeLRUloop {k : String} {st : SysState}
    (h : mapLookup k st.cache = none) (es : List (String × CachedImage))
    (freed required : ℚ) :
    mapLookup k (removeLRUloop es freed required st).cache = none := by
  induction es generalizing st freed with
  | nil => exact h
  | cons kv rest ih =>
      obtain ⟨key, cached⟩ := kv
      unfold removeLRUloop
      split
      · exact h
      · exact ih (mapLookup_none_clearImage h key) _

theorem mapLookup_none_cleanup {k : String} {st : SysState}
    (h : mapLookup k st.cache = none) (now required : ℚ) :
    mapLookup k (cleanup now required st).cache = none := by
  simp only [cleanup]
  split
  · exact mapLookup_none_removeLRUloop
      (mapLookup_none_foldl_clearImage h _) _ _ _
  · exact mapLookup_none_foldl_clearImage h _

/-- State reached by four real operations that leak most of the memory
budget: key k is inserted with a 52,000,000-byte source at time 0, overwritten
at time 1,800,000 (expired, so a second 52,000,000 bytes is tracked with no
release), overwritten again at time 3,600,000 with an 800,000-byte source
(tracking 800,000 more), and finally cleared (releasing only the live 800,000
charge).  The cache ends empty with the accountant stuck at 104,000,000 of
the 104,857,600-byte limit. -/
def c10leakTrace : SysState :=
  clearImage "k"
    (getCachedImageRepo 3600000 (some 800000) "k" defaultOptions 1
      (getCachedImageRepo 1800000 (some 52000000) "k" defaultOptions 1
        (getCachedImageRepo 0 (some 52000000) "k" defaultOptions 1 initState).2).2).2

/-- Claim C10, counterexample: from the reachable state `c10leakTrace`
(empty cache, accountant at 104,000,000) a miss for a URI whose fetch fails
cannot allocate its 1,048,576-byte default even after cleanup, so the call
resolves with the original URI, size 1,048,576 and `fromCache: false` but
NO cache entry is created for the unreachable URI — refuting the claim's
"a cache entry is still created" at an explicit concrete input. -/
theorem c10_counterexample :
    ((getCachedImageRepo 3600000 none "u.png" defaultOptions 1 c10leakTrace).1 =
        ⟨"u.png", 1048576, false⟩) ∧
      (mapLookup "u.png"
        (getCachedImageRepo 3600000 none "u.png" defaultOptions 1
          c10leakTrace).2.cache = none) ∧
      c10leakTrace.usage = 104000000 := by
  norm_num [c10leakTrace, getCachedImageRepo, getCachedImage, getCachedImageMiss,
    processAndCache, missEntry, chooseProcessed, compressImageModel, estimateImageSize,
    canAllocate, trackMemoryUsage, releaseMemory, shouldCompress, isCacheValid,
    mapLookup, mapSet, mapDelete, enforceCacheLimits, removeLeastRecentlyUsed,
    removeLRUloop, sortByLastAccessed, insertByLastAccessed, cleanup,
    removeExpiredEntries, clearImage, memoryPercentage, cacheSize, cacheSizeList,
    entryCharge, jsOrQ, jsOrStr, initState, defaultOptions, MEMORY_LIMIT,
    MAX_CACHE_SIZE, MAX_CACHE_ENTRIES, WARNING_THRESHOLD, CACHE_EXPIRY_MS, max_def]

/-- Claim C10 (amended): for a key whose fetch fails during size estimation
(cache miss, default options), `getCachedImage` never rejects and always
resolves with the original URI, the fixed 1,048,576-byte default and
`fromCache: false`; but a cache entry is created for the unreachable URI only
when the 1MB default allocation fits: (first conjunct) when it fits the memory
limit and the cache is within its entry/size limits, the entry is inserted and
the accountant grows by 1,048,576; (second conjunct) when the allocation does
not fit even after cleanup, the call resolves with the same result while
creating NO entry and leaving the post-cleanup state as is. -/
theorem c10_amended_fetch_failure
    (st : SysState) (uri : String)
    (hl : mapLookup uri st.cache = none)
    (now : ℚ) (fuel : ℕ) :
    (st.usage + 1048576 ≤ MEMORY_LIMIT → st.cache.length < MAX_CACHE_ENTRIES →
      cacheSizeList st.cache + 1048576 ≤ MAX_CACHE_SIZE →
      getCachedImageRepo now none uri defaultOptions fuel st =
        (⟨uri, 1048576, false⟩,
         ⟨mapSet uri (⟨uri, none, 1048576, none, now, 1, now⟩ : CachedImage) st.cache,
          st.usage + 1048576⟩)) ∧
    (canAllocate 1048576 st.usage = false →
      canAllocate 1048576 (cleanup now 1048576 st).usage = false →
      getCachedImageRepo now none uri defaultOptions fuel st =
        (⟨uri, 1048576, false⟩, cleanup now 1048576 st) ∧
      mapLookup uri (cleanup now 1048576 st).cache = none) := by
  constructor
  · intro h1 h2 h3
    exact fetchFailureMissNormalRegime st uri hl h1 h2 h3 now fuel
  · intro hca1 hca2
    have hen : estimateImageSize (none : Option ℚ) = 1048576 := by
      norm_num [estimateImageSize]
    constructor
    · rw [getCachedImageRepo,
        getCachedImage_eq_miss_of_none (show defaultOptions.cacheKey.getD uri = uri from rfl) hl]
      simp only [getCachedImageMiss]
      rw [hen, hca1]
      rw [if_neg Bool.false_ne_true]
      rw [hca2]
      rw [if_neg Bool.false_ne_true]
    · exact mapLookup_none_cleanup hl now 1048576

/-- Witness for C10 (amended), exercising the entry-creating regime from the
empty initial state. -/
theorem c10_witness :
    getCachedImageRepo 0 none "u.png" defaultOptions 3 initState =
      (⟨"u.png", 1048576, false⟩,
       ⟨mapSet "u.png" (⟨"u.png", none, 1048576, none, 0, 1, 0⟩ : CachedImage) initState.cache,
        initState.usage + 1048576⟩) :=
  (c10_amended_fetch_failure initState "u.png" rfl 0 3).1
    (by norm_num [initState, MEMORY_LIMIT])
    (by norm_num [initState, MAX_CACHE_ENTRIES])
    (by norm_num [initState, cacheSizeList, MAX_CACHE_SIZE])
